import Mathlib

/-!
Verification development for the SermoDigital/jose repository (Go).

The Go source is shallowly embedded: Go maps become association lists,
Go slices become Lean lists, `int64` arithmetic wraps at 2^64, functions
returning `error` return `Option Err` (with `none` for Go's `nil`), and
functions returning `(T, error)` return `Except Err T`.  External codecs
(JSON, base64url) that live outside the repository are abstracted as
parameters bundled in `Env`.  Go interface values for signing methods are
identified by an `id` field, mirroring Go's interface identity comparison.
-/

namespace Jose

/-- Bytes of a wire segment (`[]byte` in Go). -/
abbrev Bytes := List Nat

/-- Opaque verification/signing key (`interface{}` in Go). -/
abbrev Key := Nat

/-- Raw signature bytes (`crypto.Signature` in Go). -/
abbrev Sig := List Nat

/-- JSON-representable values stored in headers and claim maps.
`int` models Go's `int64` (type assertion `.(int64)` only matches this
constructor, mirroring Go's dynamic type check). -/
inductive JVal where
  | str (s : String)
  | int (n : Int)
  | bool (b : Bool)
  | null
deriving DecidableEq, Repr

/-- Errors of the repository.  Constructors mirror the named `error`
variables in the Go source; `methodErr` stands for an opaque error
produced by a signing method's `Sign`/`Verify`; `decodeErr` for an opaque
codec error; `multi` is `jws.MultiError`. -/
inductive Err where
  | errNotEnoughMethods
  | errNotEnoughKeys
  | errMismatchedAlgorithms
  | errCannotValidate
  | errNotEnoughValidSignatures
  | errNoAlgorithm
  | errNotCompact
  | errTwoEmptyHeaders
  | errDuplicateHeaderParameter
  | errHoldsJWE
  | errCouldNotUnmarshal
  | errTokenIsExpired
  | errTokenNotYetValid
  | errNilMethod
  | methodErr (n : Nat)
  | decodeErr (n : Nat)
  | multi (es : List Err)

/-- A JOSE header (`jose.Header`, a Go `map[string]interface{}`), modelled
as an association list with unique keys maintained by the operations. -/
abbrev Header := List (String × JVal)

/-- `jose.Header.Get`: retrieves the value for `key` (`nil` → `none`). -/
def Header.Get (h : Header) (key : String) : Option JVal :=
  (h.find? (fun kv => kv.1 = key)).map (·.2)

/-- `jose.Header.Has`: true if a value for the given key exists. -/
def Header.Has (h : Header) (key : String) : Bool :=
  h.any (fun kv => kv.1 = key)

/-- `jose.Header.Set`: sets `h[key] = val`, overwriting without warning. -/
def Header.Set (h : Header) (key : String) (val : JVal) : Header :=
  (h.filter (fun kv => kv.1 ≠ key)) ++ [(key, val)]

/-- `jose.Header.Del`: removes the value for the given key. -/
def Header.Del (h : Header) (key : String) : Header :=
  h.filter (fun kv => kv.1 ≠ key)

end Jose

namespace Jwt

open Jose

/-- `jwt.Claims`, a `map[string]interface{}` of JOSE claims. -/
abbrev Claims := Jose.Header

/-- `jwt.Claims.Get`. -/
def Claims.Get (c : Claims) (key : String) : Option JVal := Header.Get c key

/-- Two's-complement wrap-around of Go `int64` arithmetic. -/
def wrap64 (x : Int) : Int := (x + 2 ^ 63) % 2 ^ 64 - 2 ^ 63

/-- `jwt.within` from `src/jwt/claims.go`:
`cur+delta < max || cur-delta < max` over Go `int64`. -/
def within (cur delta mx : Int) : Bool :=
  wrap64 (cur + delta) < mx || wrap64 (cur - delta) < mx

/-- `jwt.Claims.expiration`: claim `exp` via type assertion `.(int64)`. -/
def Claims.expiration (c : Claims) : Option Int :=
  match Claims.Get c "exp" with
  | some (.int v) => some v
  | _ => none

/-- `jwt.Claims.notBefore`: claim `nbf` via type assertion `.(int64)`. -/
def Claims.notBefore (c : Claims) : Option Int :=
  match Claims.Get c "nbf" with
  | some (.int v) => some v
  | _ => none

/-- `jwt.Claims.Validate` from `src/jwt/claims.go` lines 15–28.
Returns `none` for Go's `nil` error. -/
def Claims.Validate (c : Claims) (now expLeeway nbfLeeway : Int) : Option Err :=
  match Claims.expiration c with
  | some exp =>
      if ¬ within exp expLeeway now then some .errTokenIsExpired
      else
        match Claims.notBefore c with
        | some nbf =>
            if ¬ within nbf nbfLeeway now then some .errTokenNotYetValid else none
        | none => none
  | none =>
      match Claims.notBefore c with
      | some nbf =>
          if ¬ within nbf nbfLeeway now then some .errTokenNotYetValid else none
      | none => none

end Jwt

namespace Jws

open Jose

/-- `crypto.SigningMethod` (a Go interface).  `id` models Go interface
identity, so two method values are the same interface value iff their ids
agree; `alg` is `Alg()`; `sign`/`verify` are the opaque cryptographic
behaviours (`Sign` returns `(Signature, error)`, `Verify` returns
`error`, with `none` for `nil`). -/
structure SigningMethod where
  id : Nat
  alg : String
  sign : Bytes → Key → Except Err Sig
  verify : Bytes → Sig → Key → Option Err

/-- Go interface comparison `s.method != method` where `s.method` may be
the nil interface (`none`). -/
def methodEq (om : Option SigningMethod) (m : SigningMethod) : Bool :=
  match om with
  | some m2 => m2.id = m.id
  | none => false

/-- `jws.sigHead` (`src/unnamed/part_007` lines 106–116): raw wire fields
`Protected`/`Unprotected`/`Signature` plus the decoded headers `prot`
(Go field `protected`) and `unprot` (Go field `unprotected`), the cache
flag and the bound method (Go zero value `nil` → `none`). -/
structure SigHead where
  «Protected» : Bytes
  Unprotected : Bytes
  Signature : Sig
  prot : Header
  unprot : Header
  clean : Bool
  method : Option SigningMethod

/-- Zero value of `sigHead` as produced by Go's `json.Unmarshal` for the
unexported fields. -/
def SigHead.zero (p u : Bytes) (s : Sig) : SigHead :=
  { «Protected» := p, Unprotected := u, Signature := s,
    prot := [], unprot := [], clean := false, method := none }

/-- The payload value held by a JWS (`interface{}` in Go).  `raw` is the
default representation of a decoded payload segment; `custom` is a value
produced by a caller-supplied `json.Unmarshaler`. -/
inductive PVal where
  | null
  | raw (b : Bytes)
  | custom (n : Nat)
deriving DecidableEq, Repr

/-- Modelled from the spec (§4.5, §6): the `payload` struct of the `jws`
package is absent from `src/`; only its callers are present.  It holds
the payload value `v` and an optional caller-supplied custom decoder `u`. -/
structure Payload where
  v : PVal
  u : Option (Bytes → Except Err PVal)

/-- Modelled from the spec (§4.5, §6): `payload.UnmarshalJSON` decodes a
payload segment through the caller-supplied custom decoder if one is
given; if that decoder errors, it falls back to treating the payload as
its raw decoded form.  Base64url transport decoding is abstracted as the
identity on segment bytes. -/
def Payload.UnmarshalJSON (p : Payload) (b : Bytes) : Payload :=
  match p.u with
  | some u =>
      match u b with
      | .ok v => { p with v := v }
      | .error _ => { p with v := .raw b }
  | none => { p with v := .raw b }

/-- `jws.jws` (`src/unnamed/part_007` lines 64–72): payload, cached
payload encoding, payload cache flag, signature blocks, JWT marker. -/
structure Jws where
  payload : Payload
  plcache : Bytes
  clean : Bool
  sb : List SigHead
  isJWT : Bool

/-- `jws.format` (`src/unnamed/part_004` lines 138–140): joins byte
slices with a period (byte 46). -/
def format (a : List Bytes) : Bytes := (a.intersperse [46]).flatten

/-- `sigHead.verify` (`src/unnamed/part_006` lines 225–230): algorithm
mismatch is detected before the method's `Verify` runs. -/
def SigHead.verify (s : SigHead) (pl : Bytes) (key : Key) (method : SigningMethod) :
    Option Err :=
  if ¬ methodEq s.method method then some .errMismatchedAlgorithms
  else method.verify (format [s.Protected, pl]) s.Signature key

/-- `jws.Verify` (`src/unnamed/part_006` lines 218–223). -/
def Jws.Verify (j : Jws) (key : Key) (method : SigningMethod) : Option Err :=
  if j.sb.length < 1 then some .errCannotValidate
  else (j.sb.headD (SigHead.zero [] [] [])).verify j.plcache key method

/-- `jws.SigningOpts` (`src/unnamed/part_006` lines 157–166).  `Indices`
distinguishes Go's nil slice (`none`) from a non-nil slice. -/
structure SigningOpts where
  Number : Int
  Indices : Option (List Int)
  ptr : Nat

/-- `SigningOpts.Append` (`src/unnamed/part_006` lines 169–171): Go's
`append` turns a nil slice into a non-nil one. -/
def SigningOpts.Append (s : SigningOpts) (x : Int) : SigningOpts :=
  { s with Indices := some ((s.Indices.getD []) ++ [x]) }

/-- `SigningOpts.Needs` (`src/unnamed/part_006` lines 176–183), returning
the boolean result together with the updated receiver (Go mutates the
receiver's `ptr`). -/
def SigningOpts.Needs (s : SigningOpts) (x : Int) : Bool × SigningOpts :=
  let idx := s.Indices.getD []
  if h : s.ptr < idx.length then
    if idx.get ⟨s.ptr, h⟩ = x then (true, { s with ptr := s.ptr + 1 })
    else (false, s)
  else (false, s)

/-- `SigningOpts.Inc` (`src/unnamed/part_006` line 186). -/
def SigningOpts.Inc (s : SigningOpts) : SigningOpts :=
  { s with Number := s.Number + 1 }

/-- `jws.eq` (`src/unnamed/part_006` lines 201–214) on `[]int`, with
Go nil slices as `none`. -/
def eqInts (a b : Option (List Int)) : Bool :=
  match a, b with
  | none, none => true
  | none, some _ => false
  | some _, none => false
  | some xs, some ys => xs = ys

/-- `SigningOpts.Validate` (`src/unnamed/part_006` lines 192–199): the
receiver is the caller's opts, `have» is the tally of successes. -/
def SigningOpts.Validate (s : SigningOpts) (hv : SigningOpts) : Option Err :=
  if hv.Number < s.Number ∨ (s.Indices ≠ none ∧ ¬ eqInts s.Indices hv.Indices) then
    some .errNotEnoughValidSignatures
  else none

/-- `MultiError.sanityCheck` (`src/unnamed/part_006` lines 56–61): a nil
`MultiError` (never appended to) is the nil error. -/
def sanityCheck (m : List Err) : Option Err :=
  match m with
  | [] => none
  | _ => some (.multi m)

/-- The per-block loop of `jws.VerifyMulti` (`src/unnamed/part_006`
lines 124–135), threading the caller's opts (whose `ptr` is advanced by
`Needs`), the success tally `o2` and the `MultiError` accumulator. -/
def vmLoop (pl : Bytes) : List (SigHead × Key × SigningMethod) → Nat →
    SigningOpts → SigningOpts → List Err → SigningOpts × SigningOpts × List Err
  | [], _, oo, o2, m => (oo, o2, m)
  | (s, k, mt) :: rest, i, oo, o2, m =>
      match s.verify pl k mt with
      | some e => vmLoop pl rest (i + 1) oo o2 (m ++ [e])
      | none =>
          let o2a := o2.Inc
          let nd := oo.Needs (Int.ofNat i)
          let o2b := if nd.1 then o2a.Append (Int.ofNat i) else o2a
          vmLoop pl rest (i + 1) nd.2 o2b m

/-- `jws.VerifyMulti` (`src/unnamed/part_006` lines 92–141). -/
def Jws.VerifyMulti (j : Jws) (keys : List Key) (methods : List SigningMethod)
    (o : Option SigningOpts) : Option Err :=
  if keys.length = 1 ∧ methods.length = 1 ∧ j.sb.length = 1 then
    j.Verify (keys.headD 0) (methods.headD ⟨0, "", fun _ _ => .error .errNilMethod,
      fun _ _ _ => none⟩)
  else if j.sb.length ≠ methods.length then some .errNotEnoughMethods
  else if keys.length < 1 ∨ (keys.length > 1 ∧ keys.length ≠ j.sb.length) then
    some .errNotEnoughKeys
  else
    let keys2 := if keys.length = 1 then List.replicate methods.length (keys.headD 0)
      else keys
    let o0 := o.getD { Number := 0, Indices := none, ptr := 0 }
    let r := vmLoop j.plcache (j.sb.zip (keys2.zip methods)) 0 o0
      { Number := 0, Indices := none, ptr := 0 } []
    match r.1.Validate r.2.1 with
    | some e => some e
    | none => sanityCheck r.2.2

end Jws

namespace Jws

open Jose

/-- The process-wide signing-method registry
(`src/jws/signing_methods.go`), a `map[string]SigningMethod` modelled as
an association list. -/
abbrev Registry := List (String × SigningMethod)

/-- `jws.GetSigningMethod`: map lookup (`nil` for a missing key). -/
def GetSigningMethod (reg : Registry) (alg : String) : Option SigningMethod :=
  (reg.find? (fun kv => kv.1 = alg)).map (·.2)

/-- `jws.RegisterSigningMethod` (`src/jws/signing_methods.go` lines
53–65): panics on a duplicate name (modelled as `Except.error`), then
stores the method under its own `Alg()` name.  The hash-availability
panic is external crypto and is not modelled. -/
def RegisterSigningMethod (reg : Registry) (sm : SigningMethod) :
    Except Err Registry :=
  match GetSigningMethod reg sm.alg with
  | some _ => .error (.methodErr 0)
  | none => .ok ((reg.filter (fun kv => kv.1 ≠ sm.alg)) ++ [(sm.alg, sm)])

/-- `jws.RemoveSigningMethod`: deletes the entry under `sm.Alg()`. -/
def RemoveSigningMethod (reg : Registry) (sm : SigningMethod) : Registry :=
  reg.filter (fun kv => kv.1 ≠ sm.alg)

/-- Registry well-formedness: every entry is stored under its own
`Alg()` name.  The initial map in `src/jws/signing_methods.go` has this
shape (`SigningMethodES256.Alg(): SigningMethodES256`, …), and
register/remove preserve it. -/
def RegWF (reg : Registry) : Prop := ∀ kv ∈ reg, (kv.2).alg = kv.1

/-- `jws.New` (`src/unnamed/part_007` lines 128–144): one signature
block per method, protected header pre-populated with
`alg = methods[i].Alg()`. -/
def New (content : PVal) (methods : List SigningMethod) : Jws :=
  { payload := { v := content, u := none },
    plcache := [], clean := false, isJWT := false,
    sb := methods.map (fun m =>
      { «Protected» := [], Unprotected := [], Signature := [],
        prot := [("alg", .str m.alg)], unprot := [],
        clean := false, method := some m }) }

/-- `sigHead.assignMethod` (`src/unnamed/part_007` lines 146–159):
resolve the protected header's `alg` (string-typed) in the registry. -/
def assignMethod (reg : Registry) (p : Header) : Except Err SigningMethod :=
  match Header.Get p "alg" with
  | some (.str alg) =>
      match GetSigningMethod reg alg with
      | some sm => .ok sm
      | none => .error .errNoAlgorithm
  | _ => .error .errNoAlgorithm

/-- `jws.checkHeaders` (`src/unnamed/part_007` lines 365–375), with the
process-wide `IgnoreDupes` flag passed explicitly. -/
def checkHeaders (a b : Header) (ignoreDupes : Bool) : Option Err :=
  if a.length + b.length = 0 then some .errTwoEmptyHeaders
  else if a.any (fun kv => Header.Has b kv.1 && ¬ ignoreDupes) then
    some .errDuplicateHeaderParameter
  else none

/-- External codecs of the `jose` package and `crypto.Signature`,
abstracted: `decodeProtected` is `jose.Protected.UnmarshalJSON` (total:
`src/unnamed/part_000` lines 122–127 discard the inner error),
`decodeHeader` is `jose.Header.UnmarshalJSON`, `decodeSig` is
`crypto.Signature.UnmarshalJSON`, and the `Base64` encoders are used by
the signing path. -/
structure Env where
  decodeProtected : Bytes → Header
  decodeHeader : Bytes → Except Err Header
  decodeSig : Bytes → Except Err Sig
  payloadB64 : PVal → Except Err Bytes
  protB64 : Header → Except Err Bytes
  hdrB64 : Header → Except Err Bytes
  sigB64 : Sig → Except Err Bytes

/-- `sigHead.unmarshal` (`src/unnamed/part_007` lines 118–126): decode
the raw protected header (never fails, per `Protected.UnmarshalJSON`)
and the raw unprotected header (may fail). -/
def SigHead.unmarshal (env : Env) (s : SigHead) : Except Err SigHead :=
  match env.decodeHeader s.Unprotected with
  | .error e => .error e
  | .ok un => .ok { s with prot := env.decodeProtected s.«Protected», unprot := un }

/-- The generic envelope (`src/unnamed/part_007` lines 161–165) after
`json.Unmarshal`: raw payload, an inline signature triple and an
optional `signatures` array (`none` models JSON `null`/absent). -/
structure Generic where
  «Payload» : Bytes
  sigHead : SigHead
  Signatures : Option (List SigHead)

/-- Per-entry processing of `generic.parseGeneral`
(`src/unnamed/part_007` lines 224–237): unmarshal headers, check for
duplicates, resolve the algorithm.  The entry keeps `clean = false`
because the loop sets `g.clean` on the embedded `sigHead`, not on the
array entries. -/
def parseEntries (env : Env) (reg : Registry) (ignoreDupes : Bool) :
    List SigHead → Except Err (List SigHead)
  | [] => .ok []
  | s :: rest =>
      match s.unmarshal env with
      | .error e => .error e
      | .ok s2 =>
          match checkHeaders s2.prot s2.unprot ignoreDupes with
          | some e => .error e
          | none =>
              match assignMethod reg s2.prot with
              | .error e => .error e
              | .ok sm =>
                  match parseEntries env reg ignoreDupes rest with
                  | .error e => .error e
                  | .ok rest2 => .ok ({ s2 with method := some sm } :: rest2)

/-- `generic.parseGeneral` (`src/unnamed/part_007` lines 213–245). -/
def parseGeneral (env : Env) (reg : Registry) (ignoreDupes : Bool)
    (g : Generic) (u : Option (Bytes → Except Err PVal)) : Except Err Jws :=
  let p : Payload := { v := .null, u := u }
  let p2 := p.UnmarshalJSON g.«Payload»
  match parseEntries env reg ignoreDupes (g.Signatures.getD []) with
  | .error e => .error e
  | .ok sbs =>
      .ok { payload := p2, plcache := g.«Payload», clean := true,
            sb := sbs, isJWT := false }

/-- `generic.parseFlat` (`src/unnamed/part_007` lines 261–291). -/
def parseFlat (env : Env) (reg : Registry) (ignoreDupes : Bool)
    (g : Generic) (u : Option (Bytes → Except Err PVal)) : Except Err Jws :=
  let p : Payload := { v := .null, u := u }
  let p2 := p.UnmarshalJSON g.«Payload»
  match g.sigHead.unmarshal env with
  | .error e => .error e
  | .ok s2 =>
      let s3 := { s2 with clean := true }
      match checkHeaders s3.prot s3.unprot ignoreDupes with
      | some e => .error e
      | none =>
          match assignMethod reg s3.prot with
          | .error e => .error e
          | .ok sm =>
              .ok { payload := p2, plcache := g.«Payload», clean := true,
                    sb := [{ s3 with method := some sm }], isJWT := false }

/-- `bytes.Split(encoded, []byte{'.'})` on the period byte 46. -/
def splitDot (b : Bytes) : List Bytes := b.splitOn 46

/-- `jws.parseCompact` (`src/unnamed/part_007` lines 303–350).  The
result pairs the parsed structure with the secondary `ErrHoldsJWE`
returned alongside it when the protected header's `cty` is `"JWT"`. -/
def parseCompact (env : Env) (reg : Registry) (encoded : Bytes) (jwt : Bool) :
    Except Err (Jws × Option Err) :=
  let parts := splitDot encoded
  if parts.length ≠ 3 then .error .errNotCompact
  else
    let p := env.decodeProtected (parts.getD 0 [])
    match assignMethod reg p with
    | .error e => .error e
    | .ok sm =>
        let s : SigHead :=
          { «Protected» := [], Unprotected := [], Signature := [],
            prot := p, unprot := [], clean := true, method := some sm }
        let pl : Payload := { v := .null, u := none }
        let pl2 := pl.UnmarshalJSON (parts.getD 1 [])
        match env.decodeSig (parts.getD 2 []) with
        | .error e => .error e
        | .ok sig =>
            let j : Jws :=
              { payload := pl2, plcache := [], clean := true,
                sb := [{ s with Signature := sig }], isJWT := jwt }
            match Header.Get p "cty" with
            | some (.str "JWT") => .ok (j, some .errHoldsJWE)
            | _ => .ok (j, none)

/-- `jws.ParseCompact` (`src/unnamed/part_007` lines 299–301): the
caller-supplied unmarshaler parameter `u` is accepted but not passed on
to `parseCompact`. -/
def ParseCompact (env : Env) (reg : Registry) (encoded : Bytes)
    (u : Option (Bytes → Except Err PVal)) : Except Err (Jws × Option Err) :=
  parseCompact env reg encoded false

end Jws

namespace Jws

open Jose

/-- Replace the element at index `k` (identity when out of range; Go
panics there, a case not exercised by the modelled flows). -/
def modifyIdx : List SigHead → Nat → (SigHead → SigHead) → List SigHead
  | [], _, _ => []
  | a :: rest, 0, f => f a :: rest
  | a :: rest, k + 1, f => a :: modifyIdx rest k f

/-- Index selection shared by the header setters (`src/unnamed/part_006`
lines 606–612): `k = i[0]` only when the variadic list is non-empty,
shorter than the block list, and non-negative; otherwise `k = 0`. -/
def setterIndex (i : List Int) (n : Nat) : Nat :=
  if i.length > 0 ∧ i.length < n ∧ i.headD 0 > -1 then (i.headD 0).toNat else 0

/-- `jws.SetProtected` (`src/unnamed/part_006` lines 606–612). -/
def Jws.SetProtected (j : Jws) (key : String) (val : JVal) (i : List Int) : Jws :=
  let k := setterIndex i j.sb.length
  { j with sb := modifyIdx j.sb k (fun s => { s with prot := s.prot.Set key val }) }

/-- `jws.RemoveProtected` (`src/unnamed/part_006` lines 617–623). -/
def Jws.RemoveProtected (j : Jws) (key : String) (i : List Int) : Jws :=
  let k := setterIndex i j.sb.length
  { j with sb := modifyIdx j.sb k (fun s => { s with prot := s.prot.Del key }) }

/-- `jws.SetUnprotected` (`src/unnamed/part_006` lines 640–646). -/
def Jws.SetUnprotected (j : Jws) (key : String) (val : JVal) (i : List Int) : Jws :=
  let k := setterIndex i j.sb.length
  { j with sb := modifyIdx j.sb k (fun s => { s with unprot := s.unprot.Set key val }) }

/-- `jws.RemoveUnprotected` (`src/unnamed/part_006` lines 651–657). -/
def Jws.RemoveUnprotected (j : Jws) (key : String) (i : List Int) : Jws :=
  let k := setterIndex i j.sb.length
  { j with sb := modifyIdx j.sb k (fun s => { s with unprot := s.unprot.Del key }) }

/-- `JWS.cache` (`src/unnamed/part_004` lines 103–111): marshal the
payload only if it has changed since the last cache. -/
def Jws.cache (env : Env) (j : Jws) : Except Err Jws :=
  if ¬ j.clean then
    match env.payloadB64 j.payload.v with
    | .ok b => .ok { j with plcache := b, clean := true }
    | .error e => .error e
  else .ok j

/-- `sigHead.cache` (`src/unnamed/part_004` lines 115–134): marshal the
protected and unprotected headers only if they have changed. -/
def SigHead.cache (env : Env) (s : SigHead) : Except Err SigHead :=
  if ¬ s.clean then
    match env.protB64 s.prot with
    | .error e => .error e
    | .ok pb =>
        match env.hdrB64 s.unprot with
        | .error e => .error e
        | .ok ub => .ok { s with «Protected» := pb, Unprotected := ub, clean := true }
  else .ok s

/-- Per-block body of `JWS.sign` (`src/unnamed/part_004` lines 86–97):
refresh the header cache, then unconditionally invoke the bound method's
`Sign` over `format(Protected, plcache)` and overwrite the stored
signature.  A nil bound method would panic in Go (`errNilMethod` here). -/
def signLoop (env : Env) (pl : Bytes) : List (SigHead × Key) →
    Except Err (List SigHead)
  | [] => .ok []
  | (s, k) :: rest =>
      match s.cache env with
      | .error e => .error e
      | .ok s2 =>
          let raw := format [s2.«Protected», pl]
          match s2.method with
          | none => .error .errNilMethod
          | some m =>
              match m.sign raw k with
              | .error e => .error e
              | .ok sig =>
                  match signLoop env pl rest with
                  | .error e => .error e
                  | .ok rest2 => .ok ({ s2 with Signature := sig } :: rest2)

/-- `JWS.sign` (`src/unnamed/part_004` lines 68–100). -/
def Jws.sign (env : Env) (j : Jws) (keys : List Key) : Except Err Jws :=
  match j.cache env with
  | .error e => .error e
  | .ok j2 =>
      if keys.length < 1 ∨ (keys.length > 1 ∧ keys.length ≠ j2.sb.length) then
        .error .errNotEnoughKeys
      else
        let keys2 := if keys.length = 1 then
            List.replicate j2.sb.length (keys.headD 0)
          else keys
        match signLoop env j2.plcache (j2.sb.zip keys2) with
        | .error e => .error e
        | .ok sbs => .ok { j2 with sb := sbs }

/-- `JWS.Compact` (`src/unnamed/part_004` lines 47–65), returning the
wire bytes together with the mutated receiver. -/
def Jws.Compact (env : Env) (j : Jws) (key : Key) : Except Err (Bytes × Jws) :=
  if j.sb.length < 1 then .error .errNotEnoughMethods
  else
    match j.sign env [key] with
    | .error e => .error e
    | .ok j2 =>
        let s0 := j2.sb.headD (SigHead.zero [] [] [])
        match env.sigB64 s0.Signature with
        | .error e => .error e
        | .ok sig => .ok (format [s0.«Protected», j2.plcache, sig], j2)

/-- Relation between a (block, key) pair before signing and the block
after signing: the cached encodings and decoded headers are unchanged,
and the stored signature is exactly the fresh output of the bound
method's `Sign` over `format(Protected, plcache)`. -/
def signedRel (pl : Bytes) (p : SigHead × Key) (s2 : SigHead) : Prop :=
  s2.«Protected» = p.1.«Protected» ∧ s2.Unprotected = p.1.Unprotected ∧
  s2.prot = p.1.prot ∧ s2.unprot = p.1.unprot ∧ s2.method = p.1.method ∧
  ∃ m, p.1.method = some m ∧
    m.sign (format [p.1.«Protected», pl]) p.2 = .ok s2.Signature

/-- Boolean form of the per-block algorithm-binding invariant: the
protected header's `alg` is exactly the bound method's `Alg()` name. -/
def algInvB (s : SigHead) : Bool :=
  match s.method with
  | some m => Header.Get s.prot "alg" = some (.str m.alg)
  | none => false

end Jws

namespace Jws

open Jose

/-- Concrete ES256-named method used by witnesses: its `Verify` accepts
exactly the signature `[1]`, its `Sign` returns `[7]`. -/
def mES256 : SigningMethod :=
  { id := 1, alg := "ES256",
    sign := fun _ _ => .ok [7],
    verify := fun _ sig _ => if sig = [1] then none else some (.methodErr 1) }

/-- Concrete RS256-named method whose `Verify` accepts every signature
(so only the algorithm-mismatch guard can reject it). -/
def mRS256 : SigningMethod :=
  { id := 2, alg := "RS256",
    sign := fun _ _ => .ok [8],
    verify := fun _ _ _ => none }

/-- Method for multi-signature witnesses: accepts exactly `[1]`. -/
def mA : SigningMethod :=
  { id := 10, alg := "A0",
    sign := fun _ _ => .ok [7],
    verify := fun _ sig _ => if sig = [1] then none else some (.methodErr 10) }

/-- Second multi-signature method: accepts exactly `[1]`. -/
def mB : SigningMethod :=
  { id := 11, alg := "B1",
    sign := fun _ _ => .ok [7],
    verify := fun _ sig _ => if sig = [1] then none else some (.methodErr 11) }

/-- Third multi-signature method: accepts exactly `[1]`. -/
def mC : SigningMethod :=
  { id := 12, alg := "C2",
    sign := fun _ _ => .ok [7],
    verify := fun _ sig _ => if sig = [1] then none else some (.methodErr 12) }

/-- A fully cached signature block bound to `mES256` with a valid stored
signature. -/
def blockES : SigHead :=
  { «Protected» := [80], Unprotected := [], Signature := [1],
    prot := [("alg", .str "ES256")], unprot := [], clean := true,
    method := some mES256 }

/-- A block bound to method `m` with stored signature `sig`. -/
def mkBlock (m : SigningMethod) (sig : Sig) : SigHead :=
  { «Protected» := [80], Unprotected := [], Signature := sig,
    prot := [("alg", .str m.alg)], unprot := [], clean := true,
    method := some m }

/-- A one-block JWS whose stored signature verifies under `mES256`. -/
def jws1 : Jws :=
  { payload := { v := .null, u := none }, plcache := [112], clean := true,
    sb := [blockES], isJWT := false }

/-- A three-block JWS: blocks 0 and 2 carry the valid signature `[1]`,
block 1 carries the invalid signature `[0]`. -/
def jws3 : Jws :=
  { payload := { v := .null, u := none }, plcache := [112], clean := true,
    sb := [mkBlock mA [1], mkBlock mB [0], mkBlock mC [1]], isJWT := false }

/-- A three-block JWS whose three stored signatures all verify. -/
def jws3ok : Jws :=
  { payload := { v := .null, u := none }, plcache := [112], clean := true,
    sb := [mkBlock mA [1], mkBlock mB [1], mkBlock mC [1]], isJWT := false }

/-- Concrete environment for witnesses.  Its `Base64` encoders all fail,
so any serialization that succeeds can not have consulted them. -/
def env0 : Env :=
  { decodeProtected := fun b => if b = [80] then [("alg", .str "ES256")] else [],
    decodeHeader := fun _ => .ok [],
    decodeSig := fun b => .ok b,
    payloadB64 := fun _ => .error (.decodeErr 0),
    protB64 := fun _ => .error (.decodeErr 1),
    hdrB64 := fun _ => .error (.decodeErr 2),
    sigB64 := fun s => .ok s }

/-- A second environment, with different codec behaviour than `env0`,
used to show serialization of a clean JWS never consults the codecs. -/
def envAlt : Env :=
  { decodeProtected := fun _ => [],
    decodeHeader := fun _ => .ok [],
    decodeSig := fun _ => .ok [],
    payloadB64 := fun _ => .ok [99],
    protB64 := fun _ => .ok [98],
    hdrB64 := fun _ => .ok [97],
    sigB64 := fun _ => .ok [] }

/-- Registry holding only `mES256` under its own name. -/
def reg0 : Registry := [("ES256", mES256)]

/-- Compact wire bytes `[80] "." [112] "." [3]`. -/
def enc0 : Bytes := [80, 46, 112, 46, 3]

/-- A custom payload unmarshaler that always succeeds with a value
distinguishable from every raw payload. -/
def u0 : Bytes → Except Err PVal := fun _ => .ok (.custom 7)

end Jws

open Jose Jws

/-- C1: for every JWS with a non-empty block list, single-signature
`Verify(key, method)` returns the mismatched-algorithms error whenever
the supplied method is not the first block's bound method, for every key
and every stored signature (the quantification over `m` covers every
possible `Verify` behaviour, so the underlying method's `Verify` is
never consulted); and `Verify` on an empty block list returns
`ErrCannotValidate`. -/
theorem c1_verify_algorithm_guard (j : Jws.Jws) (key : Key) (m : SigningMethod) :
    (∀ s rest, j.sb = s :: rest → methodEq s.method m = false →
      j.Verify key m = some Err.errMismatchedAlgorithms) ∧
    (j.sb = [] → j.Verify key m = some Err.errCannotValidate) := by
  constructor
  · intro s rest hsb hne
    simp [Jws.Jws.Verify, hsb, SigHead.verify, hne]
  · intro hsb
    simp [Jws.Jws.Verify, hsb]

/-- C1 witness: `mRS256` accepts every signature, yet `Verify` with it
against a block bound to `mES256` reports the algorithm mismatch. -/
theorem c1_verify_algorithm_guard_witness :
    Jws.Jws.Verify jws1 5 mRS256 = some Err.errMismatchedAlgorithms :=
  (c1_verify_algorithm_guard jws1 5 mRS256).1 blockES [] rfl rfl

/-- C3 counterexample: the claim's value table says `exp=10` at `now=20`
(leeway 0) yields the expired error, but `Claims.Validate` returns nil
there. -/
theorem c3_claims_table_counterexample :
    Jwt.Claims.Validate [("exp", JVal.int 10)] 20 0 0 = none ∧
    Jwt.Claims.Validate [("exp", JVal.int 10)] 20 0 0 ≠ some Err.errTokenIsExpired := by
  refine ⟨rfl, fun h => ?_⟩
  rw [show Jwt.Claims.Validate [("exp", JVal.int 10)] 20 0 0 = none from rfl] at h
  exact Option.noConfusion h

/-- C3 amended: the outcomes of `Claims.Validate` on the spec's eight
table rows as the code actually computes them: `exp=10@now=20` → nil,
`exp=20@now=20` → expired, `nbf=20@now=20` → not-yet-valid,
`nbf=10@now=20` → nil, with `expLeeway=5`: `now=exp+5` → nil and
`now=exp+6` → nil, with `nbfLeeway=5`: `now=nbf−4` → nil and
`now=nbf−5` → not-yet-valid. -/
theorem c3_claims_table_actual :
    Jwt.Claims.Validate [("exp", JVal.int 10)] 20 0 0 = none ∧
    Jwt.Claims.Validate [("exp", JVal.int 20)] 20 0 0 = some Err.errTokenIsExpired ∧
    Jwt.Claims.Validate [("nbf", JVal.int 20)] 20 0 0 = some Err.errTokenNotYetValid ∧
    Jwt.Claims.Validate [("nbf", JVal.int 10)] 20 0 0 = none ∧
    Jwt.Claims.Validate [("exp", JVal.int 20)] 25 5 0 = none ∧
    Jwt.Claims.Validate [("exp", JVal.int 20)] 26 5 0 = none ∧
    Jwt.Claims.Validate [("nbf", JVal.int 20)] 16 0 5 = none ∧
    Jwt.Claims.Validate [("nbf", JVal.int 20)] 15 0 5 = some Err.errTokenNotYetValid :=
  ⟨rfl, rfl, rfl, rfl, rfl, rfl, rfl, rfl⟩

/-- C4 counterexample: the claim says `Validate` passes the `exp` check
exactly when `(exp+leeway < now)` is false or `(exp−leeway < now)` is
false; at `exp=10, now=20, leeway=0` both disjuncts of the claimed
pass-condition fail, yet `Validate` returns nil. -/
theorem c4_within_predicate_counterexample :
    ¬ ((Jwt.Claims.Validate [("exp", JVal.int 10)] 20 0 0 ≠ some Err.errTokenIsExpired) ↔
       (¬ ((10 : Int) + 0 < 20) ∨ ¬ ((10 : Int) - 0 < 20))) := by
  intro h
  have h1 : Jwt.Claims.Validate [("exp", JVal.int 10)] 20 0 0 = none := rfl
  rcases h.mp (by rw [h1]; exact fun hc => Option.noConfusion hc) with h2 | h2 <;> omega

/-- C4 amended: with an integer `exp` claim present, `Validate` returns
the expired error exactly when `within exp expLeeway now` is false,
where `within cur delta max` is the source predicate
`cur+delta < max || cur-delta < max` (the check passes when either
disjunct is TRUE, not false as claimed); symmetrically for `nbf`,
provided the `exp` check (when present) passed — otherwise the expired
error takes precedence. -/
theorem c4_validate_iff_within (c : Jwt.Claims) (now expL nbfL : Int) :
    (∀ exp, Jwt.Claims.expiration c = some exp →
      (Jwt.Claims.Validate c now expL nbfL = some Err.errTokenIsExpired ↔
        Jwt.within exp expL now = false)) ∧
    (∀ nbf, Jwt.Claims.notBefore c = some nbf →
      (∀ exp, Jwt.Claims.expiration c = some exp → Jwt.within exp expL now = true) →
      (Jwt.Claims.Validate c now expL nbfL = some Err.errTokenNotYetValid ↔
        Jwt.within nbf nbfL now = false)) := by
  constructor
  · intro exp hexp
    cases hw : Jwt.within exp expL now
    · simp [Jwt.Claims.Validate, hexp, hw]
    · simp only [Jwt.Claims.Validate, hexp, hw]
      cases hnb : Jwt.Claims.notBefore c <;> simp [hnb]
  · intro nbf hnbf hpass
    cases hexp : Jwt.Claims.expiration c
    · cases hw : Jwt.within nbf nbfL now <;>
        simp [Jwt.Claims.Validate, hexp, hnbf, hw]
    · rename_i exp
      have hw2 := hpass exp hexp
      cases hw : Jwt.within nbf nbfL now <;>
        simp [Jwt.Claims.Validate, hexp, hnbf, hw2, hw]

/-- C4 witness: at `exp=30, nbf=25, now=20` the amended
characterization yields the expired error. -/
theorem c4_validate_iff_within_witness :
    Jwt.Claims.Validate [("exp", JVal.int 30), ("nbf", JVal.int 25)] 20 0 0 =
      some Err.errTokenIsExpired :=
  ((c4_validate_iff_within [("exp", JVal.int 30), ("nbf", JVal.int 25)] 20 0 0).1
    30 rfl).mpr rfl

/-- C7: when the single-block shortcut does not apply, `VerifyMulti`
returns `ErrNotEnoughMethods` whenever the number of supplied methods
differs from the number of blocks, and `ErrNotEnoughKeys` whenever the
number of keys is neither 1 nor the number of blocks — before any
signature is verified (the result is this constant for every possible
`Verify` behaviour of the supplied methods). -/
theorem c7_verifyMulti_arity (j : Jws.Jws) (keys : List Key)
    (methods : List SigningMethod) (o : Option SigningOpts)
    (hns : ¬ (keys.length = 1 ∧ methods.length = 1 ∧ j.sb.length = 1)) :
    (j.sb.length ≠ methods.length →
      j.VerifyMulti keys methods o = some Err.errNotEnoughMethods) ∧
    (j.sb.length = methods.length →
      (keys.length < 1 ∨ (keys.length > 1 ∧ keys.length ≠ j.sb.length)) →
      j.VerifyMulti keys methods o = some Err.errNotEnoughKeys) := by
  constructor
  · intro hne
    unfold Jws.Jws.VerifyMulti
    rw [if_neg hns, if_pos hne]
  · intro heq hk
    unfold Jws.Jws.VerifyMulti
    rw [if_neg hns, if_neg (by omega), if_pos hk]

/-- C7 witness: 2 keys against 3 blocks yields the not-enough-keys
error. -/
theorem c7_verifyMulti_arity_witness :
    Jws.Jws.VerifyMulti jws3 [5, 5] [mA, mB, mC] none = some Err.errNotEnoughKeys :=
  (c7_verifyMulti_arity jws3 [5, 5] [mA, mB, mC] none
    (by intro h; exact absurd h.1 (by decide))).2 rfl (by right; exact ⟨by decide, by decide⟩)

/-- C10: a JWS with exactly one signature block, verified through
`VerifyMulti` with exactly one key and one method, ignores the quorum
options entirely and delegates to single-signature `Verify`. -/
theorem c10_verifyMulti_single_delegates (j : Jws.Jws) (key : Key)
    (m : SigningMethod) (o : Option SigningOpts) (h1 : j.sb.length = 1) :
    j.VerifyMulti [key] [m] o = j.Verify key m := by
  unfold Jws.Jws.VerifyMulti
  rw [if_pos ⟨rfl, rfl, h1⟩]
  rfl

/-- C10 witness: a quorum demanding 2 valid signatures can never be met
by one block, yet the one-block call succeeds because the options are
ignored. -/
theorem c10_verifyMulti_single_delegates_witness :
    Jws.Jws.VerifyMulti jws1 [5] [mES256] (some ⟨2, none, 0⟩) = none :=
  (c10_verifyMulti_single_delegates jws1 5 mES256 (some ⟨2, none, 0⟩) rfl).trans rfl

/-- Helper: a successful `parseEntries` run means every entry decoded
successfully and passed `checkHeaders`. -/
theorem parseEntries_check (env : Env) (reg : Registry) (ig : Bool) :
    ∀ (l sbs : List SigHead), parseEntries env reg ig l = .ok sbs →
      ∀ s ∈ l, ∃ s2, SigHead.unmarshal env s = .ok s2 ∧
        checkHeaders s2.prot s2.unprot ig = none := by
  intro l
  induction l with
  | nil => intro sbs _ s hs; cases hs
  | cons a rest ih =>
      intro sbs h s hs
      rw [parseEntries] at h
      cases hu : SigHead.unmarshal env a <;> simp only [hu] at h
      · exact absurd h (by simp)
      · rename_i a2
        cases hc : checkHeaders a2.prot a2.unprot ig <;> simp only [hc] at h
        · cases ha : assignMethod reg a2.prot <;> simp only [ha] at h
          · exact absurd h (by simp)
          · cases hr : parseEntries env reg ig rest <;> simp only [hr] at h
            · exact absurd h (by simp)
            · rcases List.mem_cons.mp hs with rfl | hs2
              · exact ⟨a2, hu, hc⟩
              · exact ih _ hr s hs2
        · exact absurd h (by simp)

/-- C6: a parsed entry with both headers empty is rejected with the
two-empty-headers error; an entry with a key in both headers is rejected
with the duplicate-header error when the tolerate flag is off and passes
the check when it is on; and both flat and general parsing enforce this:
a flat parse rejects an entry failing `checkHeaders` with exactly that
error, and any successful flat/general parse implies every entry passed
`checkHeaders`. -/
theorem c6_duplicate_header_policy :
    (∀ ig : Bool, checkHeaders [] [] ig = some Err.errTwoEmptyHeaders) ∧
    (∀ (a b : Header) (kv : String × JVal), kv ∈ a → Header.Has b kv.1 = true →
      checkHeaders a b false = some Err.errDuplicateHeaderParameter) ∧
    (∀ a b : Header, ¬ (a = [] ∧ b = []) → checkHeaders a b true = none) ∧
    (∀ (env : Env) (reg : Registry) (ig : Bool) (g : Generic) u s2 e,
      SigHead.unmarshal env g.sigHead = .ok s2 →
      checkHeaders s2.prot s2.unprot ig = some e →
      parseFlat env reg ig g u = .error e) ∧
    (∀ (env : Env) (reg : Registry) (ig : Bool) (g : Generic) u j,
      parseFlat env reg ig g u = .ok j →
      ∃ s2, SigHead.unmarshal env g.sigHead = .ok s2 ∧
        checkHeaders s2.prot s2.unprot ig = none) ∧
    (∀ (env : Env) (reg : Registry) (ig : Bool) (g : Generic) u j,
      parseGeneral env reg ig g u = .ok j →
      ∀ s ∈ g.Signatures.getD [], ∃ s2, SigHead.unmarshal env s = .ok s2 ∧
        checkHeaders s2.prot s2.unprot ig = none) := by
  refine ⟨fun ig => rfl, ?_, ?_, ?_, ?_, ?_⟩
  · intro a b kv hmem hhas
    unfold checkHeaders
    rw [if_neg, if_pos]
    · exact List.any_eq_true.mpr ⟨kv, hmem, by simp [hhas]⟩
    · have : 0 < a.length := List.length_pos.mpr (fun he => by subst he; cases hmem)
      omega
  · intro a b hne
    unfold checkHeaders
    rw [if_neg, if_neg]
    · simp
    · intro hz
      rcases List.length_eq_zero.mp (by omega : a.length = 0) with rfl
      rcases List.length_eq_zero.mp (by omega : b.length = 0) with rfl
      exact hne ⟨rfl, rfl⟩
  · intro env reg ig g u s2 e hu hc
    unfold parseFlat
    simp only [hu]
    have hc2 : checkHeaders ({ s2 with clean := true } : SigHead).prot
        ({ s2 with clean := true } : SigHead).unprot ig = some e := hc
    simp only [hc2]
  · intro env reg ig g u j h
    unfold parseFlat at h
    cases hu : SigHead.unmarshal env g.sigHead <;> simp only [hu] at h
    · exact absurd h (by simp)
    · rename_i s2
      cases hc : checkHeaders ({ s2 with clean := true } : SigHead).prot
          ({ s2 with clean := true } : SigHead).unprot ig <;> simp only [hc] at h
      · exact ⟨s2, rfl, hc⟩
      · exact absurd h (by simp)
  · intro env reg ig g u j h
    unfold parseGeneral at h
    cases hp : parseEntries env reg ig (g.Signatures.getD []) <;> simp only [hp] at h
    · exact absurd h (by simp)
    · exact parseEntries_check env reg ig _ _ hp

/-- C6 witness: both-empty headers are rejected; a shared key `k` is
rejected when the tolerate flag is off and passes when it is on. -/
theorem c6_duplicate_header_policy_witness :
    checkHeaders [] [] false = some Err.errTwoEmptyHeaders ∧
    checkHeaders [("k", JVal.int 1)] [("k", JVal.int 2)] false =
      some Err.errDuplicateHeaderParameter ∧
    checkHeaders [("k", JVal.int 1)] [("k", JVal.int 2)] true = none :=
  ⟨c6_duplicate_header_policy.1 false,
   c6_duplicate_header_policy.2.1 _ _ ("k", JVal.int 1) (by simp) rfl,
   c6_duplicate_header_policy.2.2.1 _ _ (by simp)⟩

/-- Helper: a registry lookup in a well-formed registry returns a method
whose `Alg()` name is the looked-up key. -/
theorem GetSigningMethod_wf (reg : Registry) (hwf : RegWF reg) (a : String)
    (sm : SigningMethod) (h : GetSigningMethod reg a = some sm) : sm.alg = a := by
  unfold GetSigningMethod at h
  cases hf : reg.find? (fun kv => kv.1 = a) <;> rw [hf] at h
  · exact absurd h (by simp)
  · rename_i kv
    obtain rfl : kv.2 = sm := by simpa using h
    have hp : kv.1 = a := by simpa using List.find?_some hf
    exact (hwf kv (List.mem_of_find?_eq_some hf)).trans hp

/-- Helper: a successful `assignMethod` against a well-formed registry
establishes the algorithm-binding invariant for the decoded header. -/
theorem assignMethod_inv (reg : Registry) (hwf : RegWF reg) (p : Header)
    (sm : SigningMethod) (h : assignMethod reg p = .ok sm) :
    Header.Get p "alg" = some (.str sm.alg) := by
  unfold assignMethod at h
  rcases hg : Header.Get p "alg" with _ | v <;> simp only [hg] at h
  · exact absurd h (by simp)
  · rcases v with s | n | b | _
    · cases hl : GetSigningMethod reg s <;> simp only [hl] at h
      · exact absurd h (by simp)
      · rename_i sm2
        have halg := GetSigningMethod_wf reg hwf s sm2 hl
        obtain rfl : sm2 = sm := by simpa using h
        rw [halg]
    · exact absurd h (by simp)
    · exact absurd h (by simp)
    · exact absurd h (by simp)

/-- Helper: `find?` for one key is unchanged by filtering out a
different key. -/
theorem find?_filter_other (l : Header) (k k2 : String) (hne : k2 ≠ k) :
    (l.filter (fun kv => kv.1 ≠ k)).find? (fun kv => kv.1 = k2) =
      l.find? (fun kv => kv.1 = k2) := by
  induction l with
  | nil => rfl
  | cons a rest ih =>
      by_cases ha : a.1 = k
      · have hq : ¬ (decide (a.1 ≠ k) = true) := by simp [ha]
        have hp : ¬ (decide (a.1 = k2) = true) := by
          simp only [decide_eq_true_eq]
          intro hc; exact hne (hc.symm.trans ha)
        rw [List.filter_cons, if_neg hq, ih, List.find?_cons_of_neg rest hp]
      · have hq : decide (a.1 ≠ k) = true := by simp [ha]
        rw [List.filter_cons, if_pos hq]
        by_cases h2 : a.1 = k2
        · have hp : decide (a.1 = k2) = true := by simp [h2]
          simp only [List.find?_cons, hp]
        · have hp : decide (a.1 = k2) = false := by simp [h2]
          simp only [List.find?_cons, hp]
          exact ih

/-- Helper: `Header.Set` on a different key preserves `Header.Get`. -/
theorem Header.Get_Set_other (h : Header) (k k2 : String) (v : JVal) (hne : k2 ≠ k) :
    Header.Get (Header.Set h k v) k2 = Header.Get h k2 := by
  unfold Header.Get Header.Set
  rw [List.find?_append, find?_filter_other h k k2 hne]
  have hkk : ¬ (k = k2) := fun hc => hne hc.symm
  have hnone : List.find? (fun kv => decide (kv.1 = k2)) [(k, v)] = none := by
    simp [List.find?_cons, hkk]
  rw [hnone]
  cases List.find? (fun kv => decide (kv.1 = k2)) h <;> rfl

/-- Helper: `Header.Del` on a different key preserves `Header.Get`. -/
theorem Header.Get_Del_other (h : Header) (k k2 : String) (hne : k2 ≠ k) :
    Header.Get (Header.Del h k) k2 = Header.Get h k2 := by
  unfold Header.Get Header.Del
  rw [find?_filter_other h k k2 hne]

/-- Helper: an invariant-preserving update at one index preserves an
all-blocks invariant. -/
theorem modifyIdx_all (p : SigHead → Bool) (f : SigHead → SigHead)
    (hf : ∀ s, p s = true → p (f s) = true) :
    ∀ (l : List SigHead) (k : Nat), l.all p = true → (modifyIdx l k f).all p = true := by
  intro l
  induction l with
  | nil => intro k _; rfl
  | cons a rest ih =>
      intro k hl
      rw [List.all_cons, Bool.and_eq_true] at hl
      cases k with
      | zero => simp [modifyIdx, hf a hl.1, hl.2]
      | succ k2 => simp [modifyIdx, hl.1, ih k2 hl.2]

/-- Helper: every block produced by a successful `parseEntries` run
satisfies the algorithm-binding invariant. -/
theorem parseEntries_inv (env : Env) (reg : Registry) (ig : Bool) (hwf : RegWF reg) :
    ∀ (l sbs : List SigHead), parseEntries env reg ig l = .ok sbs →
      sbs.all algInvB = true := by
  intro l
  induction l with
  | nil => intro sbs h; cases h; rfl
  | cons a rest ih =>
      intro sbs h
      rw [parseEntries] at h
      cases hu : SigHead.unmarshal env a <;> simp only [hu] at h
      · exact absurd h (by simp)
      · rename_i a2
        cases hc : checkHeaders a2.prot a2.unprot ig <;> simp only [hc] at h
        · cases ha : assignMethod reg a2.prot <;> simp only [ha] at h
          · exact absurd h (by simp)
          · rename_i sm
            cases hr : parseEntries env reg ig rest <;> simp only [hr] at h
            · exact absurd h (by simp)
            · rename_i rest2
              obtain rfl : _ :: rest2 = sbs := by simpa using h
              rw [List.all_cons, Bool.and_eq_true]
              refine ⟨?_, ih rest2 hr⟩
              simp [algInvB, assignMethod_inv reg hwf a2.prot sm ha]
        · exact absurd h (by simp)

/-- Helper: a successful `assignMethod` found a registered string-typed
`alg` in the header. -/
theorem assignMethod_shape (reg : Registry) (p : Header) (sm : SigningMethod)
    (h : assignMethod reg p = .ok sm) :
    ∃ a, Header.Get p "alg" = some (.str a) ∧ GetSigningMethod reg a = some sm := by
  unfold assignMethod at h
  rcases hg : Header.Get p "alg" with _ | v <;> simp only [hg] at h
  · exact absurd h (by simp)
  · rcases v with s | n | b | _
    · cases hl : GetSigningMethod reg s <;> simp only [hl] at h
      · exact absurd h (by simp)
      · rename_i sm2
        obtain rfl : sm2 = sm := by simpa using h
        exact ⟨s, rfl, hl⟩
    · exact absurd h (by simp)
    · exact absurd h (by simp)
    · exact absurd h (by simp)

/-- C5 amended: the algorithm-binding invariant (`alg` in the protected
header equals the bound method's `Alg()` name) holds for every block of
`New(payload, methods...)` and of every successful parse (general, flat,
compact) against a well-formed registry; it is preserved by header
setters for every key other than `alg` (mutating the `alg` entry itself
can break it, as the counterexample shows); a successful compact parse
implies the protected header carried a registered string `alg`; and an
`assignMethod` failure (missing, non-string or unregistered `alg`) makes
the compact parse fail with that error. -/
theorem c5_alg_binding :
    (∀ (content : PVal) (methods : List SigningMethod),
      ((New content methods).sb.all algInvB) = true) ∧
    (∀ (env : Env) (reg : Registry) (ig : Bool) (g : Generic) u j, RegWF reg →
      parseGeneral env reg ig g u = .ok j → j.sb.all algInvB = true) ∧
    (∀ (env : Env) (reg : Registry) (ig : Bool) (g : Generic) u j, RegWF reg →
      parseFlat env reg ig g u = .ok j → j.sb.all algInvB = true) ∧
    (∀ (env : Env) (reg : Registry) (enc : Bytes) (jwtb : Bool) j oe, RegWF reg →
      parseCompact env reg enc jwtb = .ok (j, oe) → j.sb.all algInvB = true) ∧
    (∀ (j : Jws.Jws) (key : String) (val : JVal) (i : List Int), key ≠ "alg" →
      j.sb.all algInvB = true → ((j.SetProtected key val i).sb.all algInvB) = true) ∧
    (∀ (j : Jws.Jws) (key : String) (i : List Int), key ≠ "alg" →
      j.sb.all algInvB = true → ((j.RemoveProtected key i).sb.all algInvB) = true) ∧
    (∀ (j : Jws.Jws) (key : String) (val : JVal) (i : List Int),
      j.sb.all algInvB = true → ((j.SetUnprotected key val i).sb.all algInvB) = true) ∧
    (∀ (j : Jws.Jws) (key : String) (i : List Int),
      j.sb.all algInvB = true → ((j.RemoveUnprotected key i).sb.all algInvB) = true) ∧
    (∀ (env : Env) (reg : Registry) (enc : Bytes) (jwtb : Bool) j oe,
      parseCompact env reg enc jwtb = .ok (j, oe) →
      ∃ a sm, Header.Get (env.decodeProtected ((splitDot enc).getD 0 [])) "alg" =
          some (.str a) ∧ GetSigningMethod reg a = some sm) ∧
    (∀ (env : Env) (reg : Registry) (enc : Bytes) (jwtb : Bool) (e : Err),
      (splitDot enc).length = 3 →
      assignMethod reg (env.decodeProtected ((splitDot enc).getD 0 [])) = .error e →
      parseCompact env reg enc jwtb = .error e) := by
  refine ⟨?_, ?_, ?_, ?_, ?_, ?_, ?_, ?_, ?_, ?_⟩
  · intro content methods
    rw [List.all_eq_true]
    intro s hs
    rw [Jws.New] at hs
    simp only [List.mem_map] at hs
    obtain ⟨m, _, rfl⟩ := hs
    simp [algInvB, Header.Get, List.find?_cons]
  · intro env reg ig g u j hwf h
    unfold parseGeneral at h
    cases hp : parseEntries env reg ig (g.Signatures.getD []) <;> simp only [hp] at h
    · exact absurd h (by simp)
    · rename_i sbs
      obtain rfl : _ = j := by simpa using h
      exact parseEntries_inv env reg ig hwf _ sbs hp
  · intro env reg ig g u j hwf h
    unfold parseFlat at h
    cases hu : SigHead.unmarshal env g.sigHead <;> simp only [hu] at h
    · exact absurd h (by simp)
    · rename_i s2
      cases hc : checkHeaders ({ s2 with clean := true } : SigHead).prot
          ({ s2 with clean := true } : SigHead).unprot ig <;> simp only [hc] at h
      · cases ha : assignMethod reg ({ s2 with clean := true } : SigHead).prot <;>
          simp only [ha] at h
        · exact absurd h (by simp)
        · rename_i sm
          obtain rfl : _ = j := by simpa using h
          simp [algInvB, assignMethod_inv reg hwf _ sm ha]
      · exact absurd h (by simp)
  · intro env reg enc jwtb j oe hwf h
    simp only [parseCompact] at h
    by_cases hlen : (splitDot enc).length ≠ 3
    · rw [if_pos hlen] at h; exact absurd h (by simp)
    · rw [if_neg hlen] at h
      cases ha : assignMethod reg (env.decodeProtected ((splitDot enc).getD 0 [])) <;>
        simp only [ha] at h
      · exact absurd h (by simp)
      · rename_i sm
        cases hs : env.decodeSig ((splitDot enc).getD 2 []) <;> simp only [hs] at h
        · exact absurd h (by simp)
        · rename_i sig
          split at h <;>
          · injection h with h2
            injection h2 with h3 h4
            subst h3
            simp only [List.all_cons, List.all_nil, Bool.and_true, algInvB,
              decide_eq_true_eq]
            exact assignMethod_inv reg hwf _ sm ha
  · intro j key val i hkey hall
    unfold Jws.Jws.SetProtected
    refine modifyIdx_all algInvB _ (fun s hs => ?_) j.sb _ hall
    cases hm : s.method
    · rw [algInvB, hm] at hs; exact absurd hs (by simp)
    · rename_i m
      simp only [algInvB, hm] at hs ⊢
      rw [Header.Get_Set_other s.prot key "alg" val (Ne.symm hkey)]
      exact hs
  · intro j key i hkey hall
    unfold Jws.Jws.RemoveProtected
    refine modifyIdx_all algInvB _ (fun s hs => ?_) j.sb _ hall
    cases hm : s.method
    · rw [algInvB, hm] at hs; exact absurd hs (by simp)
    · rename_i m
      simp only [algInvB, hm] at hs ⊢
      rw [Header.Get_Del_other s.prot key "alg" (Ne.symm hkey)]
      exact hs
  · intro j key val i hall
    unfold Jws.Jws.SetUnprotected
    exact modifyIdx_all algInvB
      (fun s => { s with unprot := s.unprot.Set key val }) (fun s hs => hs)
      j.sb (setterIndex i j.sb.length) hall
  · intro j key i hall
    unfold Jws.Jws.RemoveUnprotected
    exact modifyIdx_all algInvB
      (fun s => { s with unprot := s.unprot.Del key }) (fun s hs => hs)
      j.sb (setterIndex i j.sb.length) hall
  · intro env reg enc jwtb j oe h
    simp only [parseCompact] at h
    by_cases hlen : (splitDot enc).length ≠ 3
    · rw [if_pos hlen] at h; exact absurd h (by simp)
    · rw [if_neg hlen] at h
      cases ha : assignMethod reg (env.decodeProtected ((splitDot enc).getD 0 [])) <;>
        simp only [ha] at h
      · exact absurd h (by simp)
      · rename_i sm
        obtain ⟨a, hga, hsm⟩ := assignMethod_shape reg _ sm ha
        exact ⟨a, sm, hga, hsm⟩
  · intro env reg enc jwtb e hlen he
    simp only [parseCompact]
    rw [if_neg (by omega), he]

/-- C5 counterexample: `New` establishes the invariant, but the header
setter `SetProtected("alg", "RS256")` breaks it while leaving the bound
method untouched — so the invariant does not survive arbitrary
header-setter mutations as claimed. -/
theorem c5_alg_binding_counterexample :
    ((New .null [mES256]).sb.all algInvB) = true ∧
    (((New .null [mES256]).SetProtected "alg" (.str "RS256") []).sb.all algInvB) =
      false :=
  ⟨rfl, rfl⟩

/-- C5 witness: a concrete compact parse against the well-formed
registry `reg0` produces blocks satisfying the invariant, and a setter
on a key other than `alg` preserves it on `jws1`. -/
theorem c5_alg_binding_witness :
    (∃ j, parseCompact env0 reg0 enc0 false = .ok (j, none) ∧
      j.sb.all algInvB = true) ∧
    ((jws1.SetUnprotected "kid" (.str "x") []).sb.all algInvB) = true := by
  have hwf : RegWF reg0 := by
    intro kv hkv
    rcases List.mem_singleton.mp hkv with rfl
    rfl
  constructor
  · exact ⟨_, rfl, c5_alg_binding.2.2.2.1 env0 reg0 enc0 false _ none hwf rfl⟩
  · exact c5_alg_binding.2.2.2.2.2.2.1 jws1 "kid" (.str "x") [] rfl

/-- C2 amended: for a JWS with 3 blocks, writing `r_i` for block `i`'s
per-block verification outcome: with a quorum of `Number = 2`,
`VerifyMulti` returns the not-enough-valid-signatures error when fewer
than 2 blocks verify, and otherwise returns the aggregated `MultiError`
of the failing blocks — which is nil only when *all three* verify (the
quorum check never forgives an individual failure); with required
indices `{0, 2}`, the quorum passes exactly when blocks 0 and 2 both
verify (block 1 is irrelevant to the quorum), but the result is again
nil only when all three verify. -/
theorem c2_verifyMulti_quorum_three
    (j : Jws.Jws) (k0 k1 k2 : Key) (m0 m1 m2 : SigningMethod)
    (s0 s1 s2 : SigHead) (r0 r1 r2 : Option Err)
    (hsb : j.sb = [s0, s1, s2])
    (h0 : s0.verify j.plcache k0 m0 = r0)
    (h1 : s1.verify j.plcache k1 m1 = r1)
    (h2 : s2.verify j.plcache k2 m2 = r2) :
    (j.VerifyMulti [k0, k1, k2] [m0, m1, m2] (some ⟨2, none, 0⟩) =
      if 2 ≤ [r0, r1, r2].countP Option.isNone then
        sanityCheck ([r0, r1, r2].filterMap id)
      else some Err.errNotEnoughValidSignatures) ∧
    (j.VerifyMulti [k0, k1, k2] [m0, m1, m2] (some ⟨0, some [0, 2], 0⟩) =
      if r0.isNone ∧ r2.isNone then sanityCheck ([r0, r1, r2].filterMap id)
      else some Err.errNotEnoughValidSignatures) ∧
    (sanityCheck ([r0, r1, r2].filterMap id) = none ↔
      r0 = none ∧ r1 = none ∧ r2 = none) := by
  rcases r0 with _ | e0 <;> rcases r1 with _ | e1 <;> rcases r2 with _ | e2 <;>
    refine ⟨?_, ?_, ?_⟩ <;>
    simp [Jws.Jws.VerifyMulti, hsb, vmLoop, h0, h1, h2, SigningOpts.Needs,
      SigningOpts.Inc, SigningOpts.Append, SigningOpts.Validate, sanityCheck,
      eqInts, List.countP, List.countP.go, List.filterMap]

/-- C2 counterexample: in `jws3` blocks 0 and 2 verify and block 1
fails, so at least 2 of 3 verify and the required index set `{0, 2}`
verifies — yet `VerifyMulti` returns the aggregated `MultiError`, not
success, under both quorum options. -/
theorem c2_quorum_counterexample :
    SigHead.verify (mkBlock mA [1]) jws3.plcache 5 mA = none ∧
    SigHead.verify (mkBlock mB [0]) jws3.plcache 5 mB = some (Err.methodErr 11) ∧
    SigHead.verify (mkBlock mC [1]) jws3.plcache 5 mC = none ∧
    Jws.Jws.VerifyMulti jws3 [5, 5, 5] [mA, mB, mC] (some ⟨2, none, 0⟩) =
      some (Err.multi [Err.methodErr 11]) ∧
    Jws.Jws.VerifyMulti jws3 [5, 5, 5] [mA, mB, mC] (some ⟨0, some [0, 2], 0⟩) =
      some (Err.multi [Err.methodErr 11]) ∧
    some (Err.multi [Err.methodErr 11]) ≠ (none : Option Err) :=
  ⟨rfl, rfl, rfl, rfl, rfl, by simp⟩

/-- C2 witness: when all three blocks of `jws3ok` verify, the
2-of-3 quorum call returns nil. -/
theorem c2_verifyMulti_quorum_three_witness :
    Jws.Jws.VerifyMulti jws3ok [5, 5, 5] [mA, mB, mC] (some ⟨2, none, 0⟩) = none := by
  have h := (c2_verifyMulti_quorum_three jws3ok 5 5 5 mA mB mC
    (mkBlock mA [1]) (mkBlock mB [1]) (mkBlock mC [1]) none none none
    rfl rfl rfl rfl).1
  simpa using h

/-- Helper: on blocks whose header caches are clean, the signing loop
never consults the environment's encoders. -/
theorem signLoop_env_indep (env1 env2 : Env) (pl : Bytes) :
    ∀ l : List (SigHead × Key), (∀ p ∈ l, (p : SigHead × Key).1.clean = true) →
      signLoop env1 pl l = signLoop env2 pl l := by
  intro l
  induction l with
  | nil => intro _; rfl
  | cons p rest ih =>
      intro hcl
      obtain ⟨s, k⟩ := p
      have hs : s.clean = true := hcl (s, k) (List.mem_cons_self _ _)
      have hrest := ih (fun q hq => hcl q (List.mem_cons_of_mem _ hq))
      rw [signLoop, signLoop]
      simp only [SigHead.cache, hs]
      cases hm : s.method
      · simp [hm]
      · rename_i m
        cases hsig : m.sign (format [s.«Protected», pl]) k
        · simp [hm, hsig]
        · simp [hm, hsig, hrest]

/-- Helper: a successful signing loop over clean blocks leaves every
cached field unchanged and overwrites each stored signature with the
fresh `Sign` output. -/
theorem signLoop_ok_spec (env : Env) (pl : Bytes) :
    ∀ (l : List (SigHead × Key)) (sbs : List SigHead),
      (∀ p ∈ l, (p : SigHead × Key).1.clean = true) →
      signLoop env pl l = .ok sbs → List.Forall₂ (signedRel pl) l sbs := by
  intro l
  induction l with
  | nil =>
      intro sbs _ h
      obtain rfl : ([] : List SigHead) = sbs := by simpa [signLoop] using h
      exact List.Forall₂.nil
  | cons p rest ih =>
      intro sbs hcl h
      obtain ⟨s, k⟩ := p
      have hs : s.clean = true := hcl (s, k) (List.mem_cons_self _ _)
      rw [signLoop] at h
      simp only [SigHead.cache, hs, eq_self_iff_true, not_true, if_false] at h
      cases hm : s.method <;> simp only [hm] at h
      · exact absurd h (by simp)
      · rename_i m
        cases hsig : m.sign (format [s.«Protected», pl]) k <;> simp only [hsig] at h
        · exact absurd h (by simp)
        · rename_i sig
          cases hr : signLoop env pl rest <;> simp only [hr] at h
          · exact absurd h (by simp)
          · rename_i rest2
            obtain rfl : _ :: rest2 = sbs := by simpa using h
            refine List.Forall₂.cons ?_
              (ih rest2 (fun q hq => hcl q (List.mem_cons_of_mem _ hq)) hr)
            exact ⟨rfl, rfl, rfl, rfl, hm.symm, m, hm, hsig⟩

/-- C8 amended: serializing an unmodified (fully clean) JWS does not
recompute any cached encoding — the result is identical for any two
codec environments — but it is *not* signature-idempotent: every
successful re-serialization invokes each block's bound `Sign` again and
overwrites the stored signature with the fresh output. -/
theorem c8_sign_clean (env1 env2 : Env) (j : Jws.Jws) (keys : List Key)
    (hc : j.clean = true) (hb : ∀ s ∈ j.sb, s.clean = true) :
    Jws.Jws.sign env1 j keys = Jws.Jws.sign env2 j keys ∧
    (∀ j2, Jws.Jws.sign env1 j keys = .ok j2 →
      j2.plcache = j.plcache ∧ j2.payload = j.payload ∧
      List.Forall₂ (signedRel j.plcache)
        (j.sb.zip (if keys.length = 1 then
          List.replicate j.sb.length (keys.headD 0) else keys)) j2.sb) := by
  have hzip : ∀ (ks : List Key) (p : SigHead × Key), p ∈ j.sb.zip ks →
      p.1.clean = true := by
    intro ks p hp
    obtain ⟨s, k⟩ := p
    exact hb s (List.mem_zip hp).1
  constructor
  · unfold Jws.Jws.sign
    simp only [Jws.Jws.cache, hc, eq_self_iff_true, not_true, if_false]
    by_cases hk : keys.length < 1 ∨ (keys.length > 1 ∧ keys.length ≠ j.sb.length)
    · rw [if_pos hk, if_pos hk]
    · rw [if_neg hk, if_neg hk,
        signLoop_env_indep env1 env2 j.plcache _ (hzip _)]
  · intro j2 h
    unfold Jws.Jws.sign at h
    simp only [Jws.Jws.cache, hc, eq_self_iff_true, not_true, if_false] at h
    by_cases hk : keys.length < 1 ∨ (keys.length > 1 ∧ keys.length ≠ j.sb.length)
    · rw [if_pos hk] at h; exact absurd h (by simp)
    · rw [if_neg hk] at h
      cases hs : signLoop env1 j.plcache (j.sb.zip (if keys.length = 1 then
          List.replicate j.sb.length (keys.headD 0) else keys)) <;>
        simp only [hs] at h
      · exact absurd h (by simp)
      · rename_i sbs
        obtain rfl : _ = j2 := by simpa using h
        exact ⟨rfl, rfl, signLoop_ok_spec env1 j.plcache _ sbs (hzip _) hs⟩

/-- C8 counterexample: `jws1` is fully clean (payload and header caches
unmodified) with stored signature `[1]`, yet serializing it with
`Compact` succeeds with the block's signature overwritten by the fresh
`Sign` output `[7]` — the stored signatures are not left as they are. -/
theorem c8_resign_counterexample :
    jws1.clean = true ∧ blockES.clean = true ∧ jws1.sb = [blockES] ∧
    blockES.Signature = [1] ∧
    (Jws.Jws.Compact env0 jws1 5).toOption.map
      (fun pr => (pr.2.sb.headD (SigHead.zero [] [] [])).Signature) = some [7] ∧
    ([7] : Sig) ≠ [1] :=
  ⟨rfl, rfl, rfl, rfl, rfl, by simp⟩

/-- C8 witness: signing the clean `jws1` gives the same result under
two environments with different codecs (no re-encoding happens), and it
succeeds with the payload cache preserved. -/
theorem c8_sign_clean_witness :
    Jws.Jws.sign env0 jws1 [5] = Jws.Jws.sign envAlt jws1 [5] ∧
    ∃ j2, Jws.Jws.sign env0 jws1 [5] = .ok j2 ∧ j2.plcache = jws1.plcache := by
  have h := c8_sign_clean env0 envAlt jws1 [5] rfl
    (by intro s hs; rcases List.mem_singleton.mp hs with rfl; rfl)
  exact ⟨h.1, ⟨_, rfl, (h.2 _ rfl).1⟩⟩

/-- C9 amended: `ParseCompact` accepts the caller-supplied custom
unmarshaler parameter but never passes it on: the result is identical
for every unmarshaler argument, and on success the payload is always
the raw decoded form of the middle segment (the custom-decoder-with-
fallback behaviour only applies to the flat/general parse paths). -/
theorem c9_parsecompact_ignores_unmarshaler (env : Env) (reg : Registry)
    (enc : Bytes) :
    (∀ u1 u2, Jws.ParseCompact env reg enc u1 = Jws.ParseCompact env reg enc u2) ∧
    (∀ u j oe, Jws.ParseCompact env reg enc u = .ok (j, oe) →
      j.payload.v = .raw ((splitDot enc).getD 1 []) ∧ j.payload.u = none) := by
  constructor
  · intro u1 u2; rfl
  · intro u j oe h
    unfold Jws.ParseCompact at h
    simp only [parseCompact] at h
    by_cases hlen : (splitDot enc).length ≠ 3
    · rw [if_pos hlen] at h; exact absurd h (by simp)
    · rw [if_neg hlen] at h
      cases ha : assignMethod reg (env.decodeProtected ((splitDot enc).getD 0 [])) <;>
        simp only [ha] at h
      · exact absurd h (by simp)
      · cases hs : env.decodeSig ((splitDot enc).getD 2 []) <;> simp only [hs] at h
        · exact absurd h (by simp)
        · split at h <;>
          · injection h with h2
            injection h2 with h3 h4
            subst h3
            exact ⟨rfl, rfl⟩

/-- C9 counterexample: with a custom unmarshaler that succeeds with the
distinguishable value `custom 7`, `ParseCompact` still yields the raw
decoded payload of the middle segment — the unmarshaler is never
consulted, contradicting the claim that the payload segment is decoded
through it. -/
theorem c9_parsecompact_counterexample :
    u0 [112] = .ok (PVal.custom 7) ∧
    (Jws.ParseCompact env0 reg0 enc0 (some u0)).toOption.map
      (fun pr => pr.1.payload.v) = some (PVal.raw [112]) ∧
    PVal.raw [112] ≠ PVal.custom 7 :=
  ⟨rfl, rfl, by simp⟩

/-- C9 witness: the amended characterization applied to the concrete
compact token `enc0` with the custom unmarshaler `u0` supplied. -/
theorem c9_parsecompact_ignores_unmarshaler_witness :
    ∃ j, Jws.ParseCompact env0 reg0 enc0 (some u0) = .ok (j, none) ∧
      j.payload.v = PVal.raw [112] := by
  refine ⟨_, rfl, ?_⟩
  exact ((c9_parsecompact_ignores_unmarshaler env0 reg0 enc0).2 (some u0) _ none rfl).1
